import Mathlib

/-!
Verification of the client-side HTTP caching / resilience layer
(`mihajm/http`): shallow embedding of the Cache, Circuit Breaker,
Deduplicator, Retry policy, cache-control parsing and the resource
controller's published `disabled` signal, together with theorems about
the properties stated in the design spec.

Time is modelled as a natural number of milliseconds (`Date.now()`),
JS `Map`s as association lists, and JS numbers that only ever hold
integer millisecond durations as `Nat`/`Int`.
-/

namespace HttpSpec

/-! ## JS-style primitives used by the sources -/

/-- JS `String.prototype.trim` on a character list: drop whitespace from
both ends. -/
def trimChars (cs : List Char) : List Char :=
  ((cs.dropWhile Char.isWhitespace).reverse.dropWhile Char.isWhitespace).reverse

/-- JS `String.prototype.split` with a single-character separator:
`"a,b".split(',') = ["a","b"]`, `"".split(',') = [""]`,
`"a,".split(',') = ["a",""]`. -/
def splitChar (sep : Char) : List Char → List (List Char)
  | [] => [[]]
  | c :: rest =>
    match splitChar sep rest with
    | [] => if c = sep then [[], []] else [[c]]
    | h :: t => if c = sep then [] :: h :: t else (c :: h) :: t

/-- Leading decimal digit run folded to a `Nat`; `none` when there is
no leading digit (JS `parseInt` yields `NaN` there). -/
def parseDigits (cs : List Char) : Option Nat :=
  let ds := cs.takeWhile Char.isDigit
  if ds = [] then none
  else some (ds.foldl (fun a c => a * 10 + (c.toNat - '0'.toNat)) 0)

/-- JS `parseInt(s, 10)`: skip leading whitespace, optional sign, then
the leading digit run; `none` models `NaN`. -/
def parseIntJs (cs : List Char) : Option Int :=
  match cs.dropWhile Char.isWhitespace with
  | '-' :: rest => (parseDigits rest).map (fun n => -(n : Int))
  | '+' :: rest => (parseDigits rest).map (fun n => (n : Int))
  | other => (parseDigits other).map (fun n => (n : Int))

/-! ## Association-list model of a JS `Map` -/

/-- First value bound to `k`, as JS `Map.get`. -/
def assocFind {β : Type} (k : String) : List (String × β) → Option β
  | [] => none
  | (k', v) :: rest => if k' = k then some v else assocFind k rest

/-- JS `Map.delete`: remove the binding of `k`. -/
def assocErase {β : Type} (k : String) (m : List (String × β)) :
    List (String × β) :=
  m.filter (fun p => p.1 ≠ k)

/-- JS `Map.set`: replace the existing binding in place, else append. -/
def assocSet {β : Type} (k : String) (v : β) : List (String × β) → List (String × β)
  | [] => [(k, v)]
  | (k', v') :: rest =>
    if k' = k then (k, v) :: rest else (k', v') :: assocSet k v rest

/-! ## Insertion sort modelling `Array.prototype.toSorted` with a
numeric comparator (only the properties used by the eviction claims:
length preservation, permutation, sortedness w.r.t. a total `le`). -/

/-- Insert `a` in front of the first element `b` with `le a b`. -/
def insertLe {α : Type} (le : α → α → Bool) (a : α) : List α → List α
  | [] => [a]
  | b :: l => if le a b then a :: b :: l else b :: insertLe le a l

/-- Stable insertion sort by `le`. -/
def sortLe {α : Type} (le : α → α → Bool) : List α → List α
  | [] => []
  | a :: l => insertLe le a (sortLe le l)

theorem length_insertLe {α : Type} (le : α → α → Bool) (a : α) (l : List α) :
    (insertLe le a l).length = l.length + 1 := by
  induction l with
  | nil => rfl
  | cons b l ih =>
    simp only [insertLe]
    by_cases h : le a b
    · simp [h]
    · simp [h, ih]

theorem length_sortLe {α : Type} (le : α → α → Bool) (l : List α) :
    (sortLe le l).length = l.length := by
  induction l with
  | nil => rfl
  | cons a l ih => simp [sortLe, length_insertLe, ih]

theorem perm_insertLe {α : Type} (le : α → α → Bool) (a : α) (l : List α) :
    List.Perm (insertLe le a l) (a :: l) := by
  induction l with
  | nil => simp [insertLe]
  | cons b l ih =>
    simp only [insertLe]
    by_cases h : le a b
    · simp [h]
    · simp only [h, if_neg]
      exact List.Perm.trans (List.Perm.cons b ih) (List.Perm.swap a b l)

theorem perm_sortLe {α : Type} (le : α → α → Bool) (l : List α) :
    List.Perm (sortLe le l) l := by
  induction l with
  | nil => exact List.Perm.refl _
  | cons a l ih =>
    exact List.Perm.trans (perm_insertLe le a (sortLe le l)) (List.Perm.cons a ih)

/-- Sortedness of insertion given totality and transitivity of `le`. -/
theorem pairwise_insertLe {α : Type} (le : α → α → Bool)
    (htot : ∀ x y, le x y = false → le y x = true)
    (htrans : ∀ x y z, le x y = true → le y z = true → le x z = true)
    (a : α) (l : List α)
    (hl : l.Pairwise (fun x y => le x y = true)) :
    (insertLe le a l).Pairwise (fun x y => le x y = true) := by
  induction l with
  | nil => simp [insertLe]
  | cons b l ih =>
    simp only [insertLe]
    rcases List.pairwise_cons.mp hl with ⟨hb, hl'⟩
    by_cases h : le a b = true
    · rw [if_pos h]
      refine List.pairwise_cons.mpr ⟨?_, hl⟩
      intro x hx
      rcases List.mem_cons.mp hx with hx | hx
      · exact hx ▸ h
      · exact htrans a b x h (hb x hx)
    · rw [if_neg h]
      refine List.pairwise_cons.mpr ⟨?_, ih hl'⟩
      intro x hx
      have hba : le b a = true := htot a b (Bool.eq_false_iff.mpr h)
      rcases List.mem_cons.mp ((perm_insertLe le a l).mem_iff.mp hx) with hx' | hx'
      · exact hx' ▸ hba
      · exact hb x hx'

theorem pairwise_sortLe {α : Type} (le : α → α → Bool)
    (htot : ∀ x y, le x y = false → le y x = true)
    (htrans : ∀ x y z, le x y = true → le y z = true → le x z = true)
    (l : List α) :
    (sortLe le l).Pairwise (fun x y => le x y = true) := by
  induction l with
  | nil => simp [sortLe]
  | cons a l ih => exact pairwise_insertLe le htot htrans a (sortLe le l) ih

/-! ## Cache (`src/app/util/cache/cache.ts`)

A `Cache` is constructed with a cache-level `ttl` and `staleTime`
(defaults: one day / one hour) and a cleanup option
`{type: lru|oldest, maxSize, checkInterval}`.  Entries live in a JS
`Map` (association list here).  Each entry also records, as
`timeoutAt`, the absolute time at which the `setTimeout` scheduled by
`storeWithInvalidation` will fire `invalidate(key)` — the store-time
`Date.now()` plus the `ttl` *argument* (note: distinct from the
`expiresAt` field, which the source computes from `this.ttl`). -/

inductive CleanupKind where
  | lru
  | oldest
deriving DecidableEq

structure CleanupType where
  type : CleanupKind
  checkInterval : Nat
  maxSize : Nat
deriving DecidableEq

structure CacheEntry (T : Type) where
  value : T
  created : Nat
  stale : Nat
  useCount : Nat
  expiresAt : Nat
  timeoutAt : Nat
deriving DecidableEq

/-- The `Map<string, CacheEntry<T>>` held in `internal$`. -/
abbrev CacheMap (T : Type) := List (String × CacheEntry T)

namespace Cache

/-- `getEntry(key)`: `null` if missing; if `found.expiresAt <= Date.now()`,
delete the entry and return `null`; otherwise return it.  Returns the
possibly-updated map alongside the result. -/
def getEntry {T : Type} (m : CacheMap T) (key : String) (now : Nat) :
    Option (CacheEntry T) × CacheMap T :=
  match assocFind key m with
  | none => (none, m)
  | some found =>
    if found.expiresAt ≤ now then (none, assocErase key m)
    else (some found, m)

/-- `getEntryAndStale(key)`: pairs the entry with
`isStale = found.stale < Date.now()`. -/
def getEntryAndStale {T : Type} (m : CacheMap T) (key : String) (now : Nat) :
    Option (CacheEntry T × Bool) × CacheMap T :=
  match getEntry m key now with
  | (none, m') => (none, m')
  | (some found, m') => (some (found, decide (found.stale < now)), m')

/-- `found.entry.useCount++` mutates the matched entry in place. -/
def bumpUseCount {T : Type} (m : CacheMap T) (key : String) : CacheMap T :=
  m.map (fun p =>
    if p.1 = key then (p.1, { p.2 with useCount := p.2.useCount + 1 }) else p)

/-- `get(key)`: `null` for a falsy (null or empty) key or a
missing/expired entry, else `{value, isStale}` with the entry's use
count incremented. -/
def get {T : Type} (m : CacheMap T) (key : Option String) (now : Nat) :
    Option (T × Bool) × CacheMap T :=
  match key with
  | none => (none, m)
  | some k =>
    if k.length = 0 then (none, m)
    else
      match getEntryAndStale m k now with
      | (none, m') => (none, m')
      | (some (found, isStale), m') =>
        (some (found.value, isStale), bumpUseCount m' k)

/-- Sort key used by `cleanup`'s comparator: ascending `useCount` for
`lru`, ascending `created` for `oldest`. -/
def entryRank {T : Type} (kind : CleanupKind) (e : CacheEntry T) : Nat :=
  match kind with
  | .lru => e.useCount
  | .oldest => e.created

/-- `cleanup()`: no-op when `size <= maxSize`; otherwise sort ascending
by the policy rank and keep only the final `floor(maxSize / 2)` entries
(`sorted.slice(0, length - keepCount)` is removed). -/
def cleanup {T : Type} (opt : CleanupType) (m : CacheMap T) : CacheMap T :=
  if m.length ≤ opt.maxSize then m
  else
    let sorted := sortLe
      (fun a b => decide (entryRank opt.type a.2 ≤ entryRank opt.type b.2)) m
    let keepCount := opt.maxSize / 2
    sorted.drop (sorted.length - keepCount)

/-- `storeWithInvalidation(key, value, staleTime, ttl)`: reads (and
possibly expires) the existing entry, preserves its `created` and
`useCount`, then sets
`{stale: now + staleTime, expiresAt: now + this.ttl}` — the source uses
the cache-level `cacheTtl` for `expiresAt`, while the invalidation
`setTimeout` (recorded as `timeoutAt`) uses the `ttl` argument — and
finally runs `cleanup()`. -/
def storeWithInvalidation {T : Type} (cacheTtl : Nat) (opt : CleanupType)
    (m : CacheMap T) (key : String) (value : T) (staleTime ttl now : Nat) :
    CacheMap T :=
  let r := getEntry m key now
  let entry := r.1
  let prevCount := (entry.map (fun e => e.useCount)).getD 0
  let created := (entry.map (fun e => e.created)).getD now
  cleanup opt (assocSet key
    { value := value
      created := created
      useCount := prevCount + 1
      stale := now + staleTime
      expiresAt := now + cacheTtl
      timeoutAt := now + ttl } r.2)

/-- `invalidate(key)`: remove via `getEntry`, which also prunes an
already-expired entry. -/
def invalidate {T : Type} (m : CacheMap T) (key : String) (now : Nat) :
    CacheMap T :=
  match getEntry m key now with
  | (some _, m') => assocErase key m'
  | (none, m') => m'

end Cache

/-! ## Circuit breaker (`createCircuitBreaker`)

State is the pair of signals `failureCount` / `halfOpen`; `status`
derives `CLOSED` (blocking) when `failureCount >= treshold` (the
source's spelling), else `HALF_OPEN`/`OPEN`.  Note the inverted naming
recorded in the spec: `isClosed = true` means the breaker *blocks*
calls, so "available" is `!isClosed`. -/

inductive CircuitBreakerStatus where
  | CLOSED
  | OPEN
  | HALF_OPEN
deriving DecidableEq

structure BreakerState where
  failureCount : Nat
  halfOpen : Bool
deriving DecidableEq

namespace CircuitBreaker

/-- Both signals start at `0` / `false`. -/
def init : BreakerState := { failureCount := 0, halfOpen := false }

def status (treshold : Nat) (s : BreakerState) : CircuitBreakerStatus :=
  if treshold ≤ s.failureCount then .CLOSED
  else if s.halfOpen then .HALF_OPEN
  else .OPEN

def isClosed (treshold : Nat) (s : BreakerState) : Bool :=
  status treshold s = .CLOSED

/-- Spec vocabulary: the breaker permits calls iff it is not `CLOSED`. -/
def isAvailable (treshold : Nat) (s : BreakerState) : Bool :=
  !isClosed treshold s

/-- `fail()`: increment `failureCount`, clear `halfOpen`. -/
def fail (s : BreakerState) : BreakerState :=
  { failureCount := s.failureCount + 1, halfOpen := false }

/-- `success()`: reset `failureCount` to 0, clear `halfOpen`. -/
def success (_s : BreakerState) : BreakerState :=
  { failureCount := 0, halfOpen := false }

/-- `tryOnce()` (exposed as `halfOpen`): only acts while blocking;
sets `halfOpen` and forces `failureCount := treshold - 1`. -/
def tryOnce (treshold : Nat) (s : BreakerState) : BreakerState :=
  if isClosed treshold s then { failureCount := treshold - 1, halfOpen := true }
  else s

/-- `n` consecutive `fail()` calls from the initial state. -/
def failN : Nat → BreakerState
  | 0 => init
  | n + 1 => fail (failN n)

/-- One outcome signal fed back by the resource's status subscription. -/
inductive BreakerEvent where
  | failure
  | successful
deriving DecidableEq

def stepEvent (s : BreakerState) : BreakerEvent → BreakerState
  | .failure => fail s
  | .successful => success s

def runEvents (s : BreakerState) (es : List BreakerEvent) : BreakerState :=
  es.foldl stepEvent s

end CircuitBreaker

/-! ## Retry policy (`retryOnError`, `src/app/util/retry-on-error.ts`)

The closure state is the `retries` counter, the `timeout` variable
(which the source declares, tests and clears but never assigns — the
`setTimeout` return value on line 25 is discarded), and the set of
scheduled-and-uncancelled reload timers, modelled as a list of
`(handle, fireTime)` pairs with a fresh-handle counter. -/

structure RetryState where
  retries : Nat
  /-- the closure's `timeout` variable; the source never writes a handle
  into it, so it stays `none` forever. -/
  stored : Option Nat
  /-- scheduled reload timers that no `clearTimeout` has cancelled. -/
  pending : List (Nat × Nat)
  nextHandle : Nat
deriving DecidableEq

namespace RetryOnError

def init : RetryState :=
  { retries := 0, stored := none, pending := [], nextHandle := 0 }

/-- `if (timeout) clearTimeout(timeout)`. -/
def clearStored (s : RetryState) : RetryState :=
  match s.stored with
  | some h => { s with pending := s.pending.filter (fun p => p.1 ≠ h) }
  | none => s

/-- `onError`: bail out when `retries >= max`; else increment `retries`,
clear the stored handle, and schedule a reload after
`retries <= 0 ? 0 : backoff * 2^(retries - 1)` — discarding the new
handle exactly as the source does (`stored` is left unchanged). -/
def onError (max backoff now : Nat) (s : RetryState) : RetryState :=
  if max ≤ s.retries then s
  else
    let retries := s.retries + 1
    let s' := clearStored { s with retries := retries }
    let delay := if retries = 0 then 0 else backoff * 2 ^ (retries - 1)
    { s' with
      pending := s'.pending ++ [(s'.nextHandle, now + delay)]
      nextHandle := s'.nextHandle + 1 }

/-- `onSuccess`: clear the stored handle and reset `retries`. -/
def onSuccess (s : RetryState) : RetryState :=
  { clearStored s with retries := 0 }

end RetryOnError

/-! ## Cache-control parsing (`parseCacheControlHeader`,
`resolveTimings`) -/

structure ResolvedCacheControl where
  noStore : Bool
  noCache : Bool
  mustRevalidate : Bool
  immutable : Bool
  maxAge : Option Int
  staleWhileRevalidate : Option Int
deriving DecidableEq

/-- The all-defaults directive record. -/
def emptyDirectives : ResolvedCacheControl :=
  { noStore := false, noCache := false, mustRevalidate := false,
    immutable := false, maxAge := none, staleWhileRevalidate := none }

/-- One iteration of the `for (const part of parts)` switch: `part` is
trimmed, split on `=`, the key lowercased; a missing or empty value is
falsy and skipped for the valued directives. -/
def processPart (acc : ResolvedCacheControl × Option Int) (part : List Char) :
    ResolvedCacheControl × Option Int :=
  let pieces := splitChar '=' (trimChars part)
  let key := (trimChars (pieces.headD [])).map Char.toLower
  let value := (pieces.get? 1).getD []
  let (d, sMaxAge) := acc
  if key = "no-store".toList then ({ d with noStore := true }, sMaxAge)
  else if key = "no-cache".toList then ({ d with noCache := true }, sMaxAge)
  else if key = "must-revalidate".toList ∨ key = "proxy-revalidate".toList then
    ({ d with mustRevalidate := true }, sMaxAge)
  else if key = "immutable".toList then ({ d with immutable := true }, sMaxAge)
  else if key = "max-age".toList then
    if value = [] then acc
    else match parseIntJs value with
      | some n => ({ d with maxAge := some n }, sMaxAge)
      | none => acc
  else if key = "s-max-age".toList then
    if value = [] then acc
    else match parseIntJs value with
      | some n => (d, some n)
      | none => acc
  else if key = "stale-while-revalidate".toList then
    if value = [] then acc
    else match parseIntJs value with
      | some n => ({ d with staleWhileRevalidate := some n }, sMaxAge)
      | none => acc
  else acc

/-- `parseCacheControlHeader`, as a function of the `Cache-Control`
header value (`none` when the response carries no such header). -/
def parseCacheControlHeader (header : Option String) : ResolvedCacheControl :=
  match header with
  | none => emptyDirectives
  | some h =>
    let parts := splitChar ',' h.toList
    let (d, sMaxAge) := parts.foldl processPart (emptyDirectives, none)
    let d := match sMaxAge with
      | some n => { d with maxAge := some n }
      | none => d
    if d.noStore then { emptyDirectives with noStore := true }
    else if d.immutable then { d with maxAge := none }
    else d

/-- A JS numeric duration: a finite number of milliseconds or
`Infinity`. -/
inductive JsDuration where
  | fin (n : Int)
  | inf
deriving DecidableEq

structure Timings where
  staleTime : Option JsDuration
  ttl : Option JsDuration
deriving DecidableEq

/-- `resolveTimings(cacheControl, staleTime?, ttl?)`. -/
def resolveTimings (cc : ResolvedCacheControl)
    (staleTime ttl : Option JsDuration) : Timings :=
  if cc.immutable then { staleTime := some .inf, ttl := some .inf }
  else
    let st0 := if cc.noCache || cc.mustRevalidate then some (.fin 0) else staleTime
    let st := match cc.staleWhileRevalidate with
      | some n => some (JsDuration.fin n)
      | none => st0
    let t := match cc.maxAge with
      | some n => some (JsDuration.fin (n * 1000))
      | none => ttl
    { staleTime := st, ttl := t }

/-! ## Deduplicating interceptor (`createDedupeRequestsInterceptor`)

The in-flight map is keyed by `req.urlWithParams` alone.  An underlying
call (an invocation of `next(req)`) is identified by a fresh number;
`bypass` and `issued` outcomes start a new underlying call, `joined`
returns the already-pending one. -/

structure HttpReq where
  method : String
  urlWithParams : String
  noDedupe : Bool
  body : String
deriving DecidableEq

structure DedupeState where
  inFlight : List (String × Nat)
  nextId : Nat
deriving DecidableEq

inductive DedupeOutcome where
  /-- not dedupe-eligible: handed straight to `next(req)`. -/
  | bypass (id : Nat)
  /-- no pending entry: `next(req)` issued and recorded. -/
  | issued (id : Nat)
  /-- pending entry found: its outcome is shared, no new call. -/
  | joined (id : Nat)
deriving DecidableEq

namespace Dedupe

def defaultMethods : List String := ["GET", "DELETE", "PUT", "HEAD", "OPTIONS"]

def initState : DedupeState := { inFlight := [], nextId := 0 }

/-- The interceptor body for one request. -/
def intercept (allowed : List String) (s : DedupeState) (req : HttpReq) :
    DedupeOutcome × DedupeState :=
  if ¬ allowed.contains req.method ∨ req.noDedupe then
    (.bypass s.nextId, { s with nextId := s.nextId + 1 })
  else
    match assocFind req.urlWithParams s.inFlight with
    | some id => (.joined id, s)
    | none =>
      (.issued s.nextId,
        { inFlight := (req.urlWithParams, s.nextId) :: s.inFlight,
          nextId := s.nextId + 1 })

/-- `finalize(() => inFlight.delete(req.urlWithParams))`: runs when the
underlying call settles (success or failure). -/
def settle (s : DedupeState) (key : String) : DedupeState :=
  { s with inFlight := assocErase key s.inFlight }

/-- Process a burst of requests arriving before any settlement. -/
def interceptAll (allowed : List String) (s : DedupeState) :
    List HttpReq → List DedupeOutcome × DedupeState
  | [] => ([], s)
  | req :: rest =>
    let (o, s') := intercept allowed s req
    let (os, s'') := interceptAll allowed s' rest
    (o :: os, s'')

/-- Number of underlying calls a list of outcomes started. -/
def callsMade : List DedupeOutcome → Nat
  | [] => 0
  | .bypass _ :: rest => callsMade rest + 1
  | .issued _ :: rest => callsMade rest + 1
  | .joined _ :: rest => callsMade rest

end Dedupe

/-! ## Resource controller's `req` / `disabled` signals
(`extendedHttpResource`) -/

/-- `req = computed(() => { if (cb.isClosed()) return undefined; return
request(); })`. -/
def reqSignal {Desc : Type} (treshold : Nat) (b : BreakerState)
    (request : Option Desc) : Option Desc :=
  if CircuitBreaker.isClosed treshold b then none else request

/-- `disabled = computed(() => cb.isClosed() || req() === undefined)`. -/
def disabledSignal {Desc : Type} (treshold : Nat) (b : BreakerState)
    (request : Option Desc) : Bool :=
  CircuitBreaker.isClosed treshold b || (reqSignal treshold b request).isNone

/-! ## Mutation resource settlement (`mutationResource`)

`mutate(value)` runs `onMutate` to produce a context and publishes a
new request, superseding any unsettled one (the resource applies an
outcome only when its originating request is still current, so the
superseded call's outcome is discarded).  When the current request
settles with `Resolved`/`Error`, the status subscription fires
`onSuccess`/`onError` with the stored context, then `onSettled`, then
clears the context and the pending request.  Mutate calls are numbered
so a callback log records which call a callback belongs to (the
context identity). -/

inductive MutEvent where
  /-- a `mutate(value)` call. -/
  | mutate
  /-- the current request settles with `ResourceStatus.Resolved`. -/
  | settleOk
  /-- the current request settles with `ResourceStatus.Error`. -/
  | settleErr
deriving DecidableEq

inductive CbKind where
  | onSuccessCb
  | onErrorCb
  | onSettledCb
deriving DecidableEq

structure MutRun where
  /-- index of the mutate call whose request is in flight, if any. -/
  pendingIdx : Option Nat
  /-- number of mutate calls so far. -/
  mutateCount : Nat
  /-- callbacks fired, in order, tagged with the mutate call's index. -/
  log : List (CbKind × Nat)
deriving DecidableEq

namespace Mutation

def init : MutRun := { pendingIdx := none, mutateCount := 0, log := [] }

def step (s : MutRun) : MutEvent → MutRun
  | .mutate =>
    { s with pendingIdx := some s.mutateCount, mutateCount := s.mutateCount + 1 }
  | .settleOk =>
    match s.pendingIdx with
    | some i =>
      { s with pendingIdx := none,
               log := s.log ++ [(.onSuccessCb, i), (.onSettledCb, i)] }
    | none => s
  | .settleErr =>
    match s.pendingIdx with
    | some i =>
      { s with pendingIdx := none,
               log := s.log ++ [(.onErrorCb, i), (.onSettledCb, i)] }
    | none => s

def run (es : List MutEvent) : MutRun := es.foldl step init

/-- Callbacks belonging to mutate call `i`. -/
def entriesFor (i : Nat) (log : List (CbKind × Nat)) : List (CbKind × Nat) :=
  log.filter (fun c => c.2 = i)

/-- Run invariant: a pending index is a real, not-yet-settled mutate
call; mutate calls that have not happened or are still pending have an
empty callback record; and every mutate call's callback record is
either empty or exactly one `onSuccess`/`onError` followed by one
`onSettled`. -/
def MutInv (s : MutRun) : Prop :=
  (∀ j, s.pendingIdx = some j → j < s.mutateCount) ∧
  (∀ i, s.mutateCount ≤ i → entriesFor i s.log = []) ∧
  (∀ j, s.pendingIdx = some j → entriesFor j s.log = []) ∧
  (∀ i, entriesFor i s.log = [] ∨
    ∃ k, (k = CbKind.onSuccessCb ∨ k = CbKind.onErrorCb) ∧
      entriesFor i s.log = [(k, i), (CbKind.onSettledCb, i)])

end Mutation

/-! ## Supporting lemmas -/

/-- The eviction pass never leaves more than `maxSize` entries. -/
theorem cleanup_length_le {T : Type} (opt : CleanupType) (m : CacheMap T) :
    (Cache.cleanup opt m).length ≤ opt.maxSize := by
  unfold Cache.cleanup
  by_cases h : m.length ≤ opt.maxSize
  · rw [if_pos h]
    exact h
  · rw [if_neg h]
    simp only [List.length_drop, length_sortLe]
    omega

/-- Characterisation of an eviction pass that actually evicts. -/
theorem cleanup_over {T : Type} (opt : CleanupType) (m : CacheMap T)
    (h : opt.maxSize < m.length) :
    (Cache.cleanup opt m).length = opt.maxSize / 2 ∧
    ∃ removed, List.Perm (removed ++ Cache.cleanup opt m) m ∧
      ∀ a ∈ removed, ∀ b ∈ Cache.cleanup opt m,
        Cache.entryRank opt.type a.2 ≤ Cache.entryRank opt.type b.2 := by
  have hnot : ¬ m.length ≤ opt.maxSize := Nat.not_le.mpr h
  have hcleanup : Cache.cleanup opt m =
      (sortLe (fun a b =>
          decide (Cache.entryRank opt.type a.2 ≤ Cache.entryRank opt.type b.2)) m).drop
        ((sortLe (fun a b =>
          decide (Cache.entryRank opt.type a.2 ≤ Cache.entryRank opt.type b.2)) m).length
          - opt.maxSize / 2) := by
    unfold Cache.cleanup
    rw [if_neg hnot]
  have hlen := length_sortLe (fun (a b : String × CacheEntry T) =>
    decide (Cache.entryRank opt.type a.2 ≤ Cache.entryRank opt.type b.2)) m
  have hperm := perm_sortLe (fun (a b : String × CacheEntry T) =>
    decide (Cache.entryRank opt.type a.2 ≤ Cache.entryRank opt.type b.2)) m
  have htot : ∀ x y : String × CacheEntry T,
      decide (Cache.entryRank opt.type x.2 ≤ Cache.entryRank opt.type y.2) = false →
      decide (Cache.entryRank opt.type y.2 ≤ Cache.entryRank opt.type x.2) = true := by
    intro x y hxy
    have := of_decide_eq_false hxy
    exact decide_eq_true (Nat.le_of_lt (Nat.lt_of_not_le this))
  have htrans : ∀ x y z : String × CacheEntry T,
      decide (Cache.entryRank opt.type x.2 ≤ Cache.entryRank opt.type y.2) = true →
      decide (Cache.entryRank opt.type y.2 ≤ Cache.entryRank opt.type z.2) = true →
      decide (Cache.entryRank opt.type x.2 ≤ Cache.entryRank opt.type z.2) = true := by
    intro x y z hxy hyz
    exact decide_eq_true (Nat.le_trans (of_decide_eq_true hxy) (of_decide_eq_true hyz))
  have hpw := pairwise_sortLe (fun (a b : String × CacheEntry T) =>
    decide (Cache.entryRank opt.type a.2 ≤ Cache.entryRank opt.type b.2)) htot htrans m
  constructor
  · rw [hcleanup]
    simp only [List.length_drop, hlen]
    omega
  · refine ⟨(sortLe (fun a b =>
        decide (Cache.entryRank opt.type a.2 ≤ Cache.entryRank opt.type b.2)) m).take
        ((sortLe (fun a b =>
          decide (Cache.entryRank opt.type a.2 ≤ Cache.entryRank opt.type b.2)) m).length
          - opt.maxSize / 2), ?_, ?_⟩
    · rw [hcleanup, List.take_append_drop]
      exact hperm
    · intro a ha b hb
      rw [hcleanup] at hb
      rw [← List.take_append_drop
        ((sortLe (fun a b =>
          decide (Cache.entryRank opt.type a.2 ≤ Cache.entryRank opt.type b.2)) m).length
          - opt.maxSize / 2)
        (sortLe (fun a b =>
          decide (Cache.entryRank opt.type a.2 ≤ Cache.entryRank opt.type b.2)) m)] at hpw
      rcases List.pairwise_append.mp hpw with ⟨-, -, hcross⟩
      exact of_decide_eq_true (hcross a ha b hb)

/-- `isClosed` only looks at whether `failureCount` reached the
threshold. -/
theorem isClosed_eq (treshold : Nat) (s : BreakerState) :
    CircuitBreaker.isClosed treshold s = decide (treshold ≤ s.failureCount) := by
  unfold CircuitBreaker.isClosed CircuitBreaker.status
  by_cases h : treshold ≤ s.failureCount
  · simp [h]
  · cases hb : s.halfOpen <;> simp [h, hb]

theorem failN_failureCount (n : Nat) :
    (CircuitBreaker.failN n).failureCount = n := by
  induction n with
  | zero => rfl
  | succ n ih => simp [CircuitBreaker.failN, CircuitBreaker.fail, ih]

/-! ## Claim theorems -/

/-- Claim C1 (status: code bug).  The claim says the stored entry's
expiry is determined by the `ttl` argument of
`storeWithInvalidation(key, v, staleTime, ttl)`, so with
`staleTime = 1000, ttl = 20000` a read at `t = 15000` should yield
`{value, isStale: true}`.  The source instead computes
`expiresAt: Date.now() + this.ttl` from the constructor-level ttl
(here 10000), while the invalidation `setTimeout` uses the argument
(firing only at `t = 20000`), so `get` at `t = 15000` already reports
the entry absent.  The third conjunct records the further boundary
divergence: at exactly `now + staleTime` the source still reports
`isStale: false` (`found.stale < Date.now()` is strict), where the
claim says `isStale` is already true. -/
theorem cache_get_after_store_uses_constructor_ttl :
    (Cache.get (Cache.storeWithInvalidation 10000
        { type := .lru, checkInterval := 1000, maxSize := 1000 }
        ([] : CacheMap Nat) "k" 7 1000 20000 0) (some "k") 15000).1 = none ∧
    (assocFind "k" (Cache.storeWithInvalidation 10000
        { type := .lru, checkInterval := 1000, maxSize := 1000 }
        ([] : CacheMap Nat) "k" 7 1000 20000 0)).map (fun e => e.timeoutAt)
      = some 20000 ∧
    (Cache.get (Cache.storeWithInvalidation 10000
        { type := .lru, checkInterval := 1000, maxSize := 1000 }
        ([] : CacheMap Nat) "k" 7 1000 20000 0) (some "k") 1000).1
      = some (7, false) := by
  decide

/-- Claim C2: an eviction pass that finds `size > maxSize` reduces the
map to exactly `floor(maxSize / 2)` entries and retains only entries
whose policy rank (`useCount` under LRU, `created` under OLDEST) is at
least that of every discarded entry; a pass finding `size <= maxSize`
changes nothing; and a completed `storeWithInvalidation` never leaves
more than `maxSize` entries. -/
theorem cache_eviction_bound {T : Type} (opt : CleanupType) (m : CacheMap T)
    (cacheTtl : Nat) (key : String) (value : T) (staleTime ttl now : Nat) :
    ((m.length ≤ opt.maxSize ∧ Cache.cleanup opt m = m) ∨
      (opt.maxSize < m.length ∧
        (Cache.cleanup opt m).length = opt.maxSize / 2 ∧
        ∃ removed, List.Perm (removed ++ Cache.cleanup opt m) m ∧
          ∀ a ∈ removed, ∀ b ∈ Cache.cleanup opt m,
            Cache.entryRank opt.type a.2 ≤ Cache.entryRank opt.type b.2)) ∧
    (Cache.storeWithInvalidation cacheTtl opt m key value staleTime ttl now).length
      ≤ opt.maxSize := by
  constructor
  · by_cases h : m.length ≤ opt.maxSize
    · left
      refine ⟨h, ?_⟩
      unfold Cache.cleanup
      rw [if_pos h]
    · right
      exact ⟨Nat.lt_of_not_le h, cleanup_over opt m (Nat.lt_of_not_le h)⟩
  · exact cleanup_length_le opt _

/-- Claim C3: from the initial state the breaker permits calls exactly
while fewer than `treshold` consecutive failures have been recorded (so
it stops permitting calls after exactly `treshold` consecutive
`fail()`s), a single `success()` resets `failureCount` to 0 from any
state, and with `treshold = 3` the outcome sequence
`fail; fail; success; fail; fail; fail` leaves the breaker available
after each of the first five signals and unavailable only after the
sixth. -/
theorem breaker_threshold_and_reset :
    (∀ treshold n, CircuitBreaker.isAvailable treshold (CircuitBreaker.failN n)
        = decide (n < treshold)) ∧
    (∀ s, (CircuitBreaker.success s).failureCount = 0) ∧
    ((List.range 6).map (fun k =>
        CircuitBreaker.isAvailable 3 (CircuitBreaker.runEvents CircuitBreaker.init
          (([.failure, .failure, .successful, .failure, .failure, .failure]
            : List CircuitBreaker.BreakerEvent).take (k + 1))))
      = [true, true, true, true, true, false]) := by
  refine ⟨?_, fun s => rfl, by decide⟩
  intro treshold n
  rw [CircuitBreaker.isAvailable, isClosed_eq, failN_failureCount]
  by_cases h : treshold ≤ n
  · simp [h, Nat.not_lt.mpr h]
  · simp [h, Nat.lt_of_not_le h]

/-- Claim C4 (status: code bug).  The claim says a success outcome
cancels the currently scheduled retry.  The source's `onError`
discards the `setTimeout` return value (the `timeout` variable is
declared and cleared but never assigned), so after a failure at
`t = 0` with `max = 1, backoff = 1000` and a subsequent success, the
scheduled reload at `t = 1000` is still pending and will fire: the
closure state is `retries = 0`, `timeout` still unset, and one
uncancelled timer `(handle 0, fire time 1000)`. -/
theorem retry_success_does_not_cancel_scheduled_retry :
    RetryOnError.onSuccess (RetryOnError.onError 1 1000 0 RetryOnError.init)
      = { retries := 0, stored := none, pending := [(0, 1000)], nextHandle := 1 } := by
  decide

/-- Claim C5, counterexample: the claim says the scenario header
resolves to `staleTime = 30000` milliseconds, but `resolveTimings`
copies the `stale-while-revalidate` value without any unit conversion,
yielding 30. -/
theorem swr_staleTime_not_milliseconds :
    (resolveTimings (parseCacheControlHeader
        (some "max-age=60, stale-while-revalidate=30")) none none).staleTime
      ≠ some (.fin 30000) := by
  decide

/-- Claim C5 (amended): the header
`"max-age=60, stale-while-revalidate=30"` resolves to a stored-entry
`ttl` of 60000 (`max-age` seconds × 1000) and a `staleTime` of 30 —
the `stale-while-revalidate` value is used as-is, with no
seconds-to-milliseconds conversion. -/
theorem cache_control_timings_resolution :
    resolveTimings (parseCacheControlHeader
        (some "max-age=60, stale-while-revalidate=30")) none none
      = { staleTime := some (.fin 30), ttl := some (.fin 60000) } := by
  decide

/-- Claim C6 (status: code bug).  For a header carrying both
`s-maxage=100` (the standard HTTP spelling) and `max-age=60`, the
resolved ttl comes from `max-age` (60000 ms), not from `s-maxage` as
the claim requires: the parser's switch only recognises the
nonstandard spelling `s-max-age`, as the second conjunct shows. -/
theorem s_maxage_directive_not_recognized :
    (resolveTimings (parseCacheControlHeader
        (some "s-maxage=100, max-age=60")) none none).ttl = some (.fin 60000) ∧
    (resolveTimings (parseCacheControlHeader
        (some "s-max-age=100, max-age=60")) none none).ttl = some (.fin 100000) := by
  decide

theorem intercept_joined (allowed : List String) (s : DedupeState)
    (req : HttpReq) (i : Nat)
    (hm : allowed.contains req.method = true) (hnd : req.noDedupe = false)
    (hf : assocFind req.urlWithParams s.inFlight = some i) :
    Dedupe.intercept allowed s req = (.joined i, s) := by
  have hmem : req.method ∈ allowed := by simpa using hm
  simp [Dedupe.intercept, hmem, hnd, hf]

theorem intercept_issued (allowed : List String) (s : DedupeState)
    (req : HttpReq)
    (hm : allowed.contains req.method = true) (hnd : req.noDedupe = false)
    (hf : assocFind req.urlWithParams s.inFlight = none) :
    Dedupe.intercept allowed s req
      = (.issued s.nextId,
         { inFlight := (req.urlWithParams, s.nextId) :: s.inFlight,
           nextId := s.nextId + 1 }) := by
  have hmem : req.method ∈ allowed := by simpa using hm
  simp [Dedupe.intercept, hmem, hnd, hf]

theorem interceptAll_replicate_joined (allowed : List String)
    (s : DedupeState) (req : HttpReq) (i : Nat) (n : Nat)
    (hm : allowed.contains req.method = true) (hnd : req.noDedupe = false)
    (hf : assocFind req.urlWithParams s.inFlight = some i) :
    Dedupe.interceptAll allowed s (List.replicate n req)
      = (List.replicate n (.joined i), s) := by
  induction n with
  | zero => simp [Dedupe.interceptAll]
  | succ n ih =>
    rw [List.replicate_succ]
    simp [Dedupe.interceptAll, intercept_joined allowed s req i hm hnd hf, ih,
      List.replicate_succ]

theorem callsMade_replicate_joined (n i : Nat) :
    Dedupe.callsMade (List.replicate n (.joined i)) = 0 := by
  induction n with
  | zero => rfl
  | succ n ih => simp [List.replicate_succ, Dedupe.callsMade, ih]

theorem assocFind_assocErase {β : Type} (k : String) (m : List (String × β)) :
    assocFind k (assocErase k m) = none := by
  induction m with
  | nil => rfl
  | cons p t ih =>
    by_cases h : p.1 = k
    · simpa [assocErase, h] using ih
    · simpa [assocErase, assocFind, h] using ih

/-- Claim C7: a burst of `n + 1` identical dedupe-eligible requests
arriving while none is settled invokes the underlying handler exactly
once — the first arrival issues call `s.nextId`, every later one joins
that same call and leaves the interceptor state untouched; settlement
removes the pending entry, so the next identical request issues a
fresh call; and a request with a non-allowed method or the no-dedupe
flag bypasses deduplication unconditionally. -/
theorem dedupe_single_flight (allowed : List String) (s : DedupeState)
    (req : HttpReq) (n : Nat)
    (hm : allowed.contains req.method = true)
    (hnd : req.noDedupe = false)
    (hf : assocFind req.urlWithParams s.inFlight = none) :
    (Dedupe.interceptAll allowed s (List.replicate (n + 1) req)
      = (.issued s.nextId :: List.replicate n (.joined s.nextId),
         { inFlight := (req.urlWithParams, s.nextId) :: s.inFlight,
           nextId := s.nextId + 1 })) ∧
    Dedupe.callsMade (.issued s.nextId :: List.replicate n (.joined s.nextId)) = 1 ∧
    (∀ (s' : DedupeState) (key : String),
      assocFind key (Dedupe.settle s' key).inFlight = none) ∧
    (∀ (s' : DedupeState) (req' : HttpReq),
      allowed.contains req'.method = true → req'.noDedupe = false →
      (Dedupe.intercept allowed (Dedupe.settle s' req'.urlWithParams) req').1
        = .issued s'.nextId) ∧
    (∀ (s' : DedupeState) (req' : HttpReq),
      allowed.contains req'.method = false ∨ req'.noDedupe = true →
      Dedupe.intercept allowed s' req'
        = (.bypass s'.nextId, { s' with nextId := s'.nextId + 1 })) := by
  refine ⟨?_, ?_, ?_, ?_, ?_⟩
  · rw [List.replicate_succ]
    have hi := intercept_issued allowed s req hm hnd hf
    have hj := interceptAll_replicate_joined allowed
      { inFlight := (req.urlWithParams, s.nextId) :: s.inFlight,
        nextId := s.nextId + 1 } req s.nextId n hm hnd (by simp [assocFind])
    simp [Dedupe.interceptAll, hi, hj]
  · simp [Dedupe.callsMade, callsMade_replicate_joined]
  · intro s' key
    exact assocFind_assocErase key s'.inFlight
  · intro s' req' hm' hnd'
    rw [intercept_issued allowed (Dedupe.settle s' req'.urlWithParams) req' hm' hnd'
      (assocFind_assocErase _ _)]
    rfl
  · intro s' req' hbyp
    rcases hbyp with hbyp | hbyp
    · have hnmem : req'.method ∉ allowed := by simpa using hbyp
      simp [Dedupe.intercept, hnmem]
    · simp [Dedupe.intercept, hbyp]

/-- Concrete instance of the single-flight theorem: three identical
GET requests coalesce into one issued call. -/
theorem dedupe_single_flight_witness :
    Dedupe.interceptAll Dedupe.defaultMethods Dedupe.initState
        (List.replicate 3
          { method := "GET", urlWithParams := "/todos/1", noDedupe := false,
            body := "" })
      = ([.issued 0, .joined 0, .joined 0],
         { inFlight := [("/todos/1", 0)], nextId := 1 }) :=
  (dedupe_single_flight Dedupe.defaultMethods Dedupe.initState
    { method := "GET", urlWithParams := "/todos/1", noDedupe := false, body := "" }
    2 (by decide) (by decide) (by decide)).1

/-- Claim C9: the in-flight map is keyed by `urlWithParams` alone, so
two concurrent dedupe-eligible requests sharing URL-with-params but
differing in method and/or body coalesce: the second joins the first's
underlying call. -/
theorem dedupe_key_ignores_method_and_body (u b1 b2 m1 m2 : String)
    (s : DedupeState)
    (h1 : Dedupe.defaultMethods.contains m1 = true)
    (h2 : Dedupe.defaultMethods.contains m2 = true)
    (hf : assocFind u s.inFlight = none) :
    (Dedupe.intercept Dedupe.defaultMethods s
        { method := m1, urlWithParams := u, noDedupe := false, body := b1 }).1
      = .issued s.nextId ∧
    (Dedupe.intercept Dedupe.defaultMethods
        (Dedupe.intercept Dedupe.defaultMethods s
          { method := m1, urlWithParams := u, noDedupe := false, body := b1 }).2
        { method := m2, urlWithParams := u, noDedupe := false, body := b2 }).1
      = .joined s.nextId := by
  have hi := intercept_issued Dedupe.defaultMethods s
    { method := m1, urlWithParams := u, noDedupe := false, body := b1 } h1 rfl hf
  refine ⟨by rw [hi], ?_⟩
  rw [hi]
  rw [intercept_joined Dedupe.defaultMethods _
    { method := m2, urlWithParams := u, noDedupe := false, body := b2 } s.nextId h2 rfl
    (by simp [assocFind])]

/-- Concrete instance: a GET and a DELETE with the same
URL-with-params but different bodies share one underlying call. -/
theorem dedupe_key_ignores_method_and_body_witness :
    (Dedupe.intercept Dedupe.defaultMethods Dedupe.initState
        { method := "GET", urlWithParams := "/todos/1?q=1", noDedupe := false,
          body := "" }).1 = .issued 0 ∧
    (Dedupe.intercept Dedupe.defaultMethods
        (Dedupe.intercept Dedupe.defaultMethods Dedupe.initState
          { method := "GET", urlWithParams := "/todos/1?q=1", noDedupe := false,
            body := "" }).2
        { method := "DELETE", urlWithParams := "/todos/1?q=1", noDedupe := false,
          body := "x" }).1 = .joined 0 :=
  dedupe_key_ignores_method_and_body "/todos/1?q=1" "" "x" "GET" "DELETE"
    Dedupe.initState (by decide) (by decide) (by decide)

/-- Claim C10: the published `disabled` signal is true exactly when
the circuit breaker blocks calls or the caller's request function
returned `undefined`; equivalently it is false only when the breaker
is available and a descriptor is present. -/
theorem disabled_iff_blocking_or_no_descriptor {Desc : Type} (treshold : Nat)
    (b : BreakerState) (request : Option Desc) :
    disabledSignal treshold b request = true ↔
      (CircuitBreaker.isClosed treshold b = true ∨ request = none) := by
  unfold disabledSignal reqSignal
  cases hc : CircuitBreaker.isClosed treshold b
  · cases request <;> simp [hc]
  · simp [hc]

theorem entriesFor_append (i : Nat) (l1 l2 : List (CbKind × Nat)) :
    Mutation.entriesFor i (l1 ++ l2)
      = Mutation.entriesFor i l1 ++ Mutation.entriesFor i l2 := by
  simp [Mutation.entriesFor]

theorem entriesFor_pair (j i : Nat) (a b : CbKind) :
    Mutation.entriesFor j [(a, i), (b, i)]
      = if i = j then [(a, i), (b, i)] else [] := by
  by_cases h : i = j <;> simp [Mutation.entriesFor, h]

theorem mutation_step_inv (s : MutRun) (e : MutEvent)
    (h : Mutation.MutInv s) : Mutation.MutInv (Mutation.step s e) := by
  obtain ⟨h1, h2, h3, h4⟩ := h
  cases e with
  | mutate =>
    refine ⟨?_, ?_, ?_, h4⟩
    · intro j hj
      simp only [Mutation.step, Option.some.injEq] at hj ⊢
      omega
    · intro i hi
      simp only [Mutation.step] at hi
      exact h2 i (Nat.le_of_succ_le hi)
    · intro j hj
      simp only [Mutation.step, Option.some.injEq] at hj
      exact hj ▸ h2 s.mutateCount (Nat.le_refl _)
  | settleOk =>
    cases hp : s.pendingIdx with
    | none =>
      simp only [Mutation.step, hp]
      exact ⟨h1, h2, h3, h4⟩
    | some i0 =>
      have hi0 : i0 < s.mutateCount := h1 i0 hp
      have hempty : Mutation.entriesFor i0 s.log = [] := h3 i0 hp
      simp only [Mutation.step, hp]
      refine ⟨fun j hj => by simp at hj, ?_, fun j hj => by simp at hj, ?_⟩
      · intro i hi
        simp only at hi
        rw [entriesFor_append, entriesFor_pair, h2 i hi, if_neg (by omega)]
        rfl
      · intro i
        by_cases hii : i = i0
        · subst hii
          right
          refine ⟨.onSuccessCb, Or.inl rfl, ?_⟩
          rw [entriesFor_append, entriesFor_pair, hempty, if_pos rfl]
          rfl
        · rw [entriesFor_append, entriesFor_pair,
            if_neg (fun hc => hii hc.symm), List.append_nil]
          exact h4 i
  | settleErr =>
    cases hp : s.pendingIdx with
    | none =>
      simp only [Mutation.step, hp]
      exact ⟨h1, h2, h3, h4⟩
    | some i0 =>
      have hi0 : i0 < s.mutateCount := h1 i0 hp
      have hempty : Mutation.entriesFor i0 s.log = [] := h3 i0 hp
      simp only [Mutation.step, hp]
      refine ⟨fun j hj => by simp at hj, ?_, fun j hj => by simp at hj, ?_⟩
      · intro i hi
        simp only at hi
        rw [entriesFor_append, entriesFor_pair, h2 i hi, if_neg (by omega)]
        rfl
      · intro i
        by_cases hii : i = i0
        · subst hii
          right
          refine ⟨.onErrorCb, Or.inr rfl, ?_⟩
          rw [entriesFor_append, entriesFor_pair, hempty, if_pos rfl]
          rfl
        · rw [entriesFor_append, entriesFor_pair,
            if_neg (fun hc => hii hc.symm), List.append_nil]
          exact h4 i

theorem mutation_foldl_inv (es : List MutEvent) :
    ∀ s : MutRun, Mutation.MutInv s →
      Mutation.MutInv (es.foldl Mutation.step s) := by
  induction es with
  | nil => exact fun s h => h
  | cons e es ih =>
    intro s h
    exact ih (Mutation.step s e) (mutation_step_inv s e h)

/-- Claim C8, counterexample: the claim says every `mutate` call
settles its callbacks exactly once even when superseded, but after
`mutate; mutate; <request resolves>` the first mutate call (index 0)
receives no `onSuccess`/`onError` and no `onSettled` at all — its
request was superseded before settling, so only the second call's
callbacks fire. -/
theorem mutation_superseded_no_callbacks :
    Mutation.run [.mutate, .mutate, .settleOk]
      = { pendingIdx := none, mutateCount := 2,
          log := [(.onSuccessCb, 1), (.onSettledCb, 1)] } ∧
    Mutation.entriesFor 0 (Mutation.run [.mutate, .mutate, .settleOk]).log = [] := by
  decide

/-- Claim C8 (amended): for every sequence of mutate calls and
settlements, each mutate call's callback record is either empty — the
call never settled or was superseded by a later `mutate` before its
request settled — or consists of exactly one of
`onSuccess`/`onError` followed immediately by exactly one
`onSettled`; settlement callbacks never fire twice for the same
mutate call. -/
theorem mutation_settlement_at_most_once (es : List MutEvent) (i : Nat) :
    Mutation.entriesFor i (Mutation.run es).log = [] ∨
      ∃ k, (k = CbKind.onSuccessCb ∨ k = CbKind.onErrorCb) ∧
        Mutation.entriesFor i (Mutation.run es).log
          = [(k, i), (CbKind.onSettledCb, i)] := by
  have hinit : Mutation.MutInv Mutation.init := by
    refine ⟨?_, ?_, ?_, ?_⟩
    · intro j hj
      simp [Mutation.init] at hj
    · intro i _
      rfl
    · intro j hj
      simp [Mutation.init] at hj
    · intro i
      exact Or.inl rfl
  exact (mutation_foldl_inv es Mutation.init hinit).2.2.2 i

end HttpSpec
